import Mathlib

/-!
A verification development for the `grab-ld-binaries` repository
(`main.go`, `dlcache/dlcache.go`).

Go strings are modelled as lists of bytes (`List Nat`, each element < 256 for
real inputs); Go string indexing `s[i]` is byte indexing, which this mirrors
directly.  All string literals appearing in the claims are ASCII, where code
points and UTF-8 bytes coincide (`goStr`).

Fallible or panicking Go code is modelled with `Option`/explicit outcome
constructors: a `none` / `.panicked` value represents a Go run-time panic
(index out of range, `panic(err)`), never a normal return.
-/

/-- The bytes of an ASCII Lean string literal, as a Go string (byte list).
For ASCII strings the UTF-8 bytes are exactly the code points. -/
def goStr (s : String) : List Nat := s.data.map Char.toNat

/-- Embeds `unicode.IsDigit(rune(b))` for a single byte `b` as it occurs in
`_dl_cache_libcmp` (dlcache.go:179, 195, 205, 207): a byte converted to a rune
lies in U+0000..U+00FF, and the only Unicode decimal digits (category Nd) in
that range are the ASCII digits 0-9. -/
def isDigit (b : Nat) : Bool := decide (48 ≤ b ∧ b ≤ 57)

/-- Embeds `parseLeadingNum` (dlcache.go:178-190): take the maximal leading
run of decimal digits and parse it with `strconv.ParseInt(s, 10, 32)`.
`none` models the `panic(err)` on a parse error: an empty digit run (syntax
error) or a value exceeding the signed 32-bit maximum 2147483647 (range
error).  Digit runs are modelled at the byte level (ASCII digits); this
agrees with the Go code on every byte string in which no multi-byte Unicode
digit character immediately follows an ASCII digit run (in particular on all
ASCII strings, which covers every soname and every input in the claims). -/
def parseLeadingNum (s : List Nat) : Option Int :=
  let ds := s.takeWhile isDigit
  if ds = [] then none
  else
    let v : Nat := ds.foldl (fun a c => 10 * a + (c - 48)) 0
    if v ≤ 2147483647 then some (v : Int) else none

/-- Embeds the scan loop and final length comparison of `_dl_cache_libcmp`
(dlcache.go:192-221).  The two lists are the byte suffixes of `p1` and `p2`
starting at the current index `i`; the loop runs while both are nonempty
(`i < l` with `l` the shorter length) and the trailing cases embed the
length comparison after the loop (the consumed prefixes have equal length,
so comparing the remainders compares the original lengths).  `none` models
the panic propagated out of `parseLeadingNum`.  When the two digit runs
parse to equal values the Go loop advances `i` by one, which is the
recursion on the two tails. -/
def libcmpLoop : List Nat → List Nat → Option Int
  | [], [] => some 0
  | [], _ :: _ => some (-1)
  | _ :: _, [] => some 1
  | c1 :: r1, c2 :: r2 =>
    if isDigit c1 && isDigit c2 then
      match parseLeadingNum (c1 :: r1), parseLeadingNum (c2 :: r2) with
      | some n1, some n2 =>
        if n1 < n2 then some (-1)
        else if n1 > n2 then some 1
        else libcmpLoop r1 r2
      | _, _ => none
    else if isDigit c1 then some 1
    else if isDigit c2 then some (-1)
    else if c1 < c2 then some (-1)
    else if c1 > c2 then some 1
    else libcmpLoop r1 r2

/-- Embeds `_dl_cache_libcmp` (dlcache.go:172-222). -/
def _dl_cache_libcmp (p1 p2 : List Nat) : Option Int := libcmpLoop p1 p2

example : _dl_cache_libcmp (goStr "a.so") (goStr "b.so") = some (-1) := by decide
example : _dl_cache_libcmp (goStr "a-1.so") (goStr "a-10.so") = some (-1) := by decide
example : _dl_cache_libcmp (goStr "a-10.so") (goStr "a-1.so") = some 1 := by decide
example : _dl_cache_libcmp (goStr "libm.so.6") (goStr "libm.so") = some 1 := by decide
example : _dl_cache_libcmp (goStr "9999999999") (goStr "9999999999") = none := by decide

/-- Embeds `fileEntry` (dlcache.go:98-101).  `Flags` holds the raw 32-bit
little-endian bit pattern of the signed `Flags` field (a `Nat` below 2^32);
the Go conversion `int(int32-value)` sign-extends, which does not change the
low bits tested by `Is64`. -/
structure fileEntry where
  Flags : Nat
  Key : List Nat
  Value : List Nat
deriving DecidableEq, Repr

/-- Embeds `fileEntry.Is64` (dlcache.go:110-112): `(fe.Flags & 0x300) == 0x300`. -/
def fileEntry.Is64 (fe : fileEntry) : Bool := fe.Flags &&& 0x300 == 0x300

/-- Embeds `DLCache` (dlcache.go:37-39). -/
structure DLCache where
  FileEntries : List fileEntry
deriving DecidableEq, Repr

/-- Outcome of a `Lookup` call.  `found p` models `return p, true`,
`notFound` models `return "", false`, and `panicked` models a Go run-time
panic escaping the call (index out of range in the fallback's logging loop,
or `panic(err)` out of `_dl_cache_libcmp`). -/
inductive LookupResult where
  | found : List Nat → LookupResult
  | notFound : LookupResult
  | panicked : LookupResult
deriving DecidableEq, Repr

/-- Embeds the bisection loop of `Lookup` (dlcache.go:53-76) on the half-open
range `[lo, hi)`.  `some r` means the loop returned `r` from inside
(a 64-bit match, or a panic out of the comparator); `none` means the loop
exited with `lo >= hi` and control falls through to the linear scan.
The `some .panicked` in the final arm is unreachable: `_dl_cache_libcmp`
only returns -1, 0 or 1 (theorem `libcmp_range`); on any other value the Go
`switch` would leave `lo`, `hi` unchanged and the loop would not terminate. -/
def bisectLoop (entries : List fileEntry) (library : List Nat) (lo hi : Nat) :
    Option LookupResult :=
  if _h : lo < hi then
    let mid := (lo + hi) / 2
    match entries.get? mid with
    | none => some .panicked
    | some e =>
      match _dl_cache_libcmp e.Key library with
      | none => some .panicked
      | some x =>
        if x = 0 then
          if e.Is64 then some (.found e.Value) else bisectLoop entries library lo mid
        else if x = -1 then bisectLoop entries library lo mid
        else if x = 1 then bisectLoop entries library (mid + 1) hi
        else some .panicked
  else none
termination_by hi - lo
decreasing_by
  all_goals omega

/-- Embeds the linear-scan fallback of `Lookup` (dlcache.go:78-87): find the
first entry whose key equals `library` byte-for-byte; before returning its
value the code logs the entries at indices `i-10 .. i+9`, and that loop
panics with an index out of range unless `10 ≤ i` and `i + 10 ≤ len`
(note `i + 9 < len ↔ i + 10 ≤ len`, and `i - 10 ≥ 0 ↔ 10 ≤ i`). -/
def fallbackScan (entries : List fileEntry) (library : List Nat) : LookupResult :=
  match entries.findIdx? (fun e => e.Key == library) with
  | none => .notFound
  | some i =>
    if 10 ≤ i ∧ i + 10 ≤ entries.length then
      match entries.get? i with
      | some e => .found e.Value
      | none => .panicked
    else .panicked

/-- Embeds `Lookup` (dlcache.go:42-90) in the configuration the claims fix:
the `LD_LIBRARY_PATH` environment override (dlcache.go:43-51) is unset, so
that branch is skipped, and the host architecture is 64-bit, which is what
the hardwired `Is64` test selects for. -/
def DLCache.Lookup (dc : DLCache) (library : List Nat) : LookupResult :=
  match bisectLoop dc.FileEntries library 0 dc.FileEntries.length with
  | some r => r
  | none => fallbackScan dc.FileEntries library

example :
    DLCache.Lookup ⟨[⟨0, goStr "a", goStr "p"⟩]⟩ (goStr "a") = .panicked := by
  simp [DLCache.Lookup, bisectLoop, fallbackScan, fileEntry.Is64]
  decide

example :
    DLCache.Lookup ⟨[⟨0x300, goStr "b", goStr "p64"⟩, ⟨0, goStr "b", goStr "p32"⟩]⟩
      (goStr "b") = .found (goStr "p64") := by
  simp [DLCache.Lookup, bisectLoop, fallbackScan, fileEntry.Is64]
  decide

example :
    DLCache.Lookup ⟨[⟨0, goStr "a", goStr "pA"⟩, ⟨0, goStr "a", goStr "pB"⟩,
      ⟨0x300, goStr "a", goStr "p64"⟩]⟩ (goStr "a") = .panicked := by
  simp [DLCache.Lookup, bisectLoop, fallbackScan, fileEntry.Is64]
  decide

/-- Decodes a 4-byte little-endian unsigned integer, as `binary.Read` with
`binary.LittleEndian` does for the `uint32`/`int32` fields (dlcache.go:121). -/
def le32 (bs : List Nat) : Nat := bs.foldr (fun b acc => b + 256 * acc) 0

/-- Embeds the `readString` closure (dlcache.go:147-150):
`l := bytes.IndexByte(stringTable[index:], 0)` followed by
`stringTable[index : index+l]`.  `none` models the two possible panics:
`index` beyond the table length (the slice expression itself panics), and no
null byte at or after `index` (`IndexByte` returns -1 and the slice
`stringTable[index : index-1]` panics). -/
def readString (tbl : List Nat) (index : Nat) : Option (List Nat) :=
  if tbl.length < index then none
  else
    match (tbl.drop index).findIdx? (fun b => b == 0) with
    | none => none
    | some l => some ((tbl.drop index).take l)

/-- Embeds the entry-building loop of `ReadDLCache` (dlcache.go:154-160):
resolve each raw record's key and value offsets through `readString`.
`none` propagates a `readString` panic, which aborts the whole decode. -/
def buildEntries (tbl : List Nat) : List (Nat × Nat × Nat) → Option (List fileEntry)
  | [] => some []
  | (fl, k, v) :: rest =>
    match readString tbl k, readString tbl v with
    | some ks, some vs => (buildEntries tbl rest).map (fileEntry.mk fl ks vs :: ·)
    | _, _ => none

/-- Outcome of `ReadDLCache` on a complete input stream.  `errMagic` is the
`fmt.Errorf` return for a failed magic check (dlcache.go:126-128);
`errTruncated` is a propagated `binary.Read` error (`io.EOF` or
`io.ErrUnexpectedEOF`) from the entry-count or record reads
(dlcache.go:131, 137); `panicked` is a run-time panic out of `readString`. -/
inductive DecodeResult where
  | ok : DLCache → DecodeResult
  | errMagic : DecodeResult
  | errTruncated : DecodeResult
  | panicked : DecodeResult
deriving DecidableEq, Repr

/-- Embeds `ReadDLCache` (dlcache.go:115-170) on a finite byte stream.

The magic read (dlcache.go:125) is a 12-byte `binary.Read` whose error is
stored but never tested: when the stream is shorter than 12 bytes,
`io.ReadFull` fails before copying anything, the `magic` array stays zeroed,
and the following check `string(magic[:5]) != "ld.so"` fails, so the
function reports the magic error rather than the read error.  Only the
first 5 of the 12 magic bytes are ever compared.

The entry count is 4 bytes little-endian; each of the `nlibs` records is 12
bytes (int32 flags, uint32 key offset, uint32 value offset); a short read in
either returns the read error (`errTruncated`).  `ioutil.ReadAll` of the
remainder (the string table) cannot fail on a finite in-memory stream, so
the `log.Fatal` at dlcache.go:144 is unreachable here. -/
def ReadDLCache (input : List Nat) : DecodeResult :=
  let magic := if input.length < 12 then List.replicate 12 0 else input.take 12
  if magic.take 5 = goStr "ld.so" then
    let r1 := input.drop 12
    if r1.length < 4 then .errTruncated
    else
      let nlibs := le32 (r1.take 4)
      let r2 := r1.drop 4
      if r2.length < 12 * nlibs then .errTruncated
      else
        let stringTable := r2.drop (12 * nlibs)
        let raws := (List.range nlibs).map fun i =>
          (le32 ((r2.drop (12 * i)).take 4),
           le32 ((r2.drop (12 * i + 4)).take 4),
           le32 ((r2.drop (12 * i + 8)).take 4))
        match buildEntries stringTable raws with
        | some es => .ok ⟨es⟩
        | none => .panicked
  else .errMagic

example : ReadDLCache [] = .errMagic := by decide
example : ReadDLCache (goStr "ld.so-1.7.0" ++ [0] ++ [1, 0]) = .errTruncated := by decide
example :
    ReadDLCache (goStr "ld.so-1.7.0" ++ [0] ++ [1, 0, 0, 0] ++
      [0, 0, 0, 0, 0, 0, 0, 0, 0, 0, 0, 0]) = .panicked := by decide
example :
    ReadDLCache (goStr "ld.so-1.7.0" ++ [0] ++ [1, 0, 0, 0] ++
      [0, 3, 0, 0, 0, 0, 0, 0, 2, 0, 0, 0] ++ goStr "ab" ++ [0]) =
    .ok ⟨[⟨768, goStr "ab", goStr ""⟩]⟩ := by decide

/-- The mutable state captured by the `visit` closure in `recursiveImports`
(main.go:121-126): the `seen` set, the `imports` result set, and — as a
proof-side instrumentation replacing the `depth` logging counter — `trace`,
the ordered list of filenames on which `readImports` has been invoked.
The Go maps are modelled as duplicate-free insertion lists; only membership
and the final key set are ever observed. -/
structure St where
  seen : List String
  imports : List String
  trace : List String
deriving DecidableEq, Repr

/-- Outcome of one `visit` call: `done` models a `nil` error return,
`failed e` models a non-nil error return carrying `e`, and `outOfFuel` is
the model-only marker that the recursion-depth budget ran out (the Go
recursion has no such budget; a Go run that terminates at all is reproduced
exactly by any sufficiently large fuel). -/
inductive VOutcome where
  | done : VOutcome
  | failed : String → VOutcome
  | outOfFuel : VOutcome
deriving DecidableEq, Repr

/-- Insertion into a Go `map[string]struct{}` modelled as a list-set:
`m[x] = struct{}{}` adds `x` only if absent. -/
def insertIfAbsent (x : String) (l : List String) : List String :=
  if x ∈ l then l else l ++ [x]

/-- Embeds the dependency loop of `visit` (main.go:142-151): for each `dep`
in order, add it to `imports`, recurse (`recur` is the one-level-deeper
`visit`), and on a non-nil error return it immediately, abandoning the
remaining deps. -/
def visitDeps (recur : String → St → St × VOutcome) :
    List String → St → St × VOutcome
  | [], st => (st, .done)
  | d :: ds, st =>
    let st1 : St := { st with imports := insertIfAbsent d st.imports }
    match recur d st1 with
    | (st2, .done) => visitDeps recur ds st2
    | r => r

/-- Embeds the recursive closure `visit` of `recursiveImports`
(main.go:127-153), with the external call `readImports(dc, filename)`
(main.go:160-186: open the file, falling back to `dc.Lookup`, and extract
the declared ELF imports) abstracted as the collaborator function `reader`,
per the spec's object-import-reader interface.  `fuel` bounds the recursion
depth to make the definition total; it plays no other role.  A filename
already in `seen` returns immediately; otherwise it is marked seen, and its
deps are fetched (recording the fetch in `trace`), a fetch error is
returned as the visit's error, and the fetched deps are walked in order. -/
def visit (reader : String → Except String (List String)) :
    Nat → String → St → St × VOutcome
  | 0, _, st => (st, .outOfFuel)
  | fuel + 1, f, st =>
    if f ∈ st.seen then (st, .done)
    else
      let st1 : St := { st with seen := f :: st.seen, trace := st.trace ++ [f] }
      match reader f with
      | .error e => (st1, .failed e)
      | .ok deps => visitDeps (visit reader fuel) deps st1

/-- Embeds `recursiveImports` (main.go:116-156): run `visit` on the start
file with empty `seen` and `imports`.  The Go function returns the pair
`(imports, visit(filename))`; the model returns the full final state
together with the outcome. -/
def recursiveImports (reader : String → Except String (List String))
    (fuel : Nat) (filename : String) : St × VOutcome :=
  visit reader fuel filename ⟨[], [], []⟩

/-- The `closure(start)` contract of spec §4.3, which is how `main`
(main.go:36-39) consumes `recursiveImports`: on a non-nil error the run is
aborted (`log.Fatal`) and the partially filled import map is discarded;
otherwise the import set is the result.  `none` marks a fuel-exhausted
model run (no Go counterpart).  Named `closureF` because Mathlib already
uses the bare name `closure`. -/
def closureF (reader : String → Except String (List String))
    (fuel : Nat) (start : String) : Option (Except String (List String)) :=
  match recursiveImports reader fuel start with
  | (st, .done) => some (.ok st.imports)
  | (_, .failed e) => some (.error e)
  | (_, .outOfFuel) => none

/-- The 2-node cyclic dependency graph of claim C2: A imports B, B imports
A, every other name resolves to no imports. -/
def cycReader : String → Except String (List String) := fun f =>
  if f = "A" then .ok ["B"] else if f = "B" then .ok ["A"] else .ok []

/-- The 4-node diamond dependency graph of claim C3: A imports B and C,
each of which imports D, which imports nothing. -/
def diamondReader : String → Except String (List String) := fun f =>
  if f = "A" then .ok ["B", "C"]
  else if f = "B" then .ok ["D"]
  else if f = "C" then .ok ["D"]
  else .ok []

/-- A graph whose node B fails to read, for exercising the error path:
A imports B, and reading B fails (unrecognized format / unresolvable). -/
def failReader : String → Except String (List String) := fun f =>
  if f = "A" then .ok ["B"]
  else if f = "B" then .error "reading B failed"
  else .ok []

example : closureF cycReader 5 "A" = some (.ok ["B", "A"]) := rfl
example : closureF diamondReader 10 "A" = some (.ok ["B", "D", "C"]) := rfl
example : (recursiveImports diamondReader 10 "A").1.trace = ["A", "B", "D", "C"] := by decide
example : closureF failReader 5 "A" = some (.error "reading B failed") := rfl

/-- Instrumentation of the `_dl_cache_libcmp` scan recording whether the
comparison, following exactly the branches the code takes, reaches a
position where both bytes are digits and at least one of the two maximal
digit runs starting there fails `strconv.ParseInt(_, 10, 32)` (value above
2147483647).  This is the claims' notion of "a compared maximal digit run
exceeding the signed 32-bit range": `true` at exactly the inputs on which
the Go comparator panics. -/
def reachedOverflow : List Nat → List Nat → Bool
  | c1 :: r1, c2 :: r2 =>
    if isDigit c1 && isDigit c2 then
      match parseLeadingNum (c1 :: r1), parseLeadingNum (c2 :: r2) with
      | some n1, some n2 =>
        if n1 < n2 then false
        else if n1 > n2 then false
        else reachedOverflow r1 r2
      | _, _ => true
    else if isDigit c1 then false
    else if isDigit c2 then false
    else if c1 < c2 then false
    else if c1 > c2 then false
    else reachedOverflow r1 r2
  | _, _ => false

/-- The comparator only ever returns -1, 0 or 1. -/
theorem libcmp_range (a : List Nat) :
    ∀ b : List Nat, ∀ r : Int, libcmpLoop a b = some r → r = -1 ∨ r = 0 ∨ r = 1 := by
  induction a with
  | nil =>
    intro b r h
    cases b <;> simp [libcmpLoop] at h <;> omega
  | cons c1 r1 ih =>
    intro b r h
    cases b with
    | nil => simp [libcmpLoop] at h; omega
    | cons c2 r2 =>
      simp only [libcmpLoop] at h
      repeat' split at h
      all_goals try exact ih r2 r h
      all_goals simp at h
      all_goals omega

/-- The comparator panics exactly when the scan reaches an overflowing
digit run. -/
theorem libcmp_none_iff (a : List Nat) :
    ∀ b : List Nat, (libcmpLoop a b = none ↔ reachedOverflow a b = true) := by
  induction a with
  | nil => intro b; cases b <;> simp [libcmpLoop, reachedOverflow]
  | cons c1 r1 ih =>
    intro b
    cases b with
    | nil => simp [libcmpLoop, reachedOverflow]
    | cons c2 r2 =>
      simp only [libcmpLoop, reachedOverflow]
      by_cases hd1 : isDigit c1 = true <;> by_cases hd2 : isDigit c2 = true <;>
        simp only [hd1, hd2, Bool.and_self, Bool.and_false, Bool.false_and,
          Bool.and_true, Bool.true_and, if_true, if_false] <;>
        try simp
      · cases hp1 : parseLeadingNum (c1 :: r1) <;> cases hp2 : parseLeadingNum (c2 :: r2) <;>
          simp [hp1, hp2] <;> split_ifs <;>
          solve
            | (rw [false_iff]; rintro ⟨h1, h2, -⟩; omega)
            | (rw [ih r2]
               exact ⟨fun hh => ⟨by omega, by omega, hh⟩, fun hh => hh.2.2⟩)
      · split_ifs <;>
          solve
            | (rw [false_iff]; rintro ⟨h1, h2, -⟩; omega)
            | (rw [ih r2]
               exact ⟨fun hh => ⟨by omega, by omega, hh⟩, fun hh => hh.2.2⟩)

/-- The comparator is antisymmetric as a partial function: swapping the
arguments negates the result, and the two orders panic together. -/
theorem libcmp_antisym (a : List Nat) :
    ∀ b : List Nat, libcmpLoop a b = (libcmpLoop b a).map (fun x => -x) := by
  induction a with
  | nil => intro b; cases b <;> simp [libcmpLoop]
  | cons c1 r1 ih =>
    intro b
    cases b with
    | nil => simp [libcmpLoop]
    | cons c2 r2 =>
      simp only [libcmpLoop]
      by_cases hd1 : isDigit c1 = true <;> by_cases hd2 : isDigit c2 = true <;>
        simp only [hd1, hd2, Bool.and_self, Bool.and_false, Bool.false_and,
          Bool.and_true, Bool.true_and, if_true, if_false] <;>
        try simp
      · cases hp1 : parseLeadingNum (c1 :: r1) <;> cases hp2 : parseLeadingNum (c2 :: r2) <;>
          simp [hp1, hp2] <;> split_ifs <;>
          first
            | rfl
            | omega
            | (exfalso; omega)
            | exact ih r2
      · split_ifs <;>
          first
            | rfl
            | omega
            | (exfalso; omega)
            | exact ih r2

/-- On equal arguments whose scan meets no overflowing run, the comparator
returns 0. -/
theorem libcmp_self (a : List Nat) :
    reachedOverflow a a = false → libcmpLoop a a = some 0 := by
  induction a with
  | nil => intro _; simp [libcmpLoop]
  | cons c r ih =>
    intro h
    simp only [libcmpLoop]
    simp only [reachedOverflow] at h
    by_cases hd : isDigit c = true <;>
      simp only [hd, Bool.and_self, if_true, if_false] at h ⊢
    · cases hp : parseLeadingNum (c :: r) <;> simp [hp] at h ⊢
      · exact ih h
    · simp at hd
      simp [hd] at h ⊢
      exact ih h

/-- C4: for every pair of strings, at the first position of the
shared-length prefix where both bytes are decimal digits — reached by the
scan, i.e. all earlier positions hold equal non-digit bytes, so no earlier
case returns — `_dl_cache_libcmp` parses the maximal digit runs starting
there as base-10 integers, and an inequality of those integers decides the
result: -1 when the first is smaller, 1 when it is larger.  The parse
hypotheses require the runs to be within `ParseInt`'s 32-bit range, without
which the comparator panics instead (claim C10). -/
theorem c4_first_digit_run_decides (pre s1 s2 : List Nat) (c1 c2 : Nat) (n1 n2 : Int)
    (hpre : ∀ b ∈ pre, isDigit b = false)
    (hd1 : isDigit c1 = true) (hd2 : isDigit c2 = true)
    (hp1 : parseLeadingNum (c1 :: s1) = some n1)
    (hp2 : parseLeadingNum (c2 :: s2) = some n2)
    (hne : n1 ≠ n2) :
    _dl_cache_libcmp (pre ++ c1 :: s1) (pre ++ c2 :: s2) =
      some (if n1 < n2 then -1 else 1) := by
  induction pre with
  | nil =>
    simp only [List.nil_append, _dl_cache_libcmp, libcmpLoop, hd1, hd2, Bool.and_self,
      if_true, hp1, hp2]
    split_ifs <;> first | rfl | omega
  | cons p pr ih =>
    have hpd : isDigit p = false := hpre p (List.mem_cons_self p pr)
    have hrec := ih (fun b hb => hpre b (List.mem_cons_of_mem p hb))
    simp only [List.cons_append, _dl_cache_libcmp, libcmpLoop, hpd, Bool.false_and,
      Bool.false_eq_true, if_false, lt_self_iff_false] at hrec ⊢
    exact hrec

/-- C4 witness: the claim's concrete instances, obtained from
`c4_first_digit_run_decides` at `pre = "a-"`, runs "1" (value 1) and
"10" (value 10). -/
theorem c4_witness :
    _dl_cache_libcmp (goStr "a-1.so") (goStr "a-10.so") = some (-1) ∧
    _dl_cache_libcmp (goStr "a-10.so") (goStr "a-1.so") = some 1 := by
  constructor
  · exact c4_first_digit_run_decides [97, 45] (goStr ".so") (goStr "0.so") 49 49 1 10
      (by decide) (by decide) (by decide) (by decide) (by decide) (by decide)
  · exact c4_first_digit_run_decides [97, 45] (goStr "0.so") (goStr ".so") 49 49 10 1
      (by decide) (by decide) (by decide) (by decide) (by decide) (by decide)

/-- C5 counterexample: the claim's reflexivity part fails as stated.  For
the string "9999999999" (ten nines, value above the signed 32-bit maximum),
`_dl_cache_libcmp(a, a)` does not return 0: `parseLeadingNum` panics on the
range error from `strconv.ParseInt(_, 10, 32)`, so the comparison never
returns. -/
theorem c5_counterexample :
    _dl_cache_libcmp (goStr "9999999999") (goStr "9999999999") = none ∧
    (none : Option Int) ≠ some 0 := by decide

/-- C5 amended: antisymmetry holds universally in partial-function form —
the two orders either both panic or return exact negatives — and
reflexivity `cmp(a, a) == 0` holds for every string on which the self-scan
meets no digit run beyond the signed 32-bit range (on an overflowing run,
`cmp(a, a)` panics instead, see the counterexample). -/
theorem c5_antisym_and_bounded_refl :
    (∀ a b : List Nat, _dl_cache_libcmp a b = (_dl_cache_libcmp b a).map (fun x => -x)) ∧
    (∀ a : List Nat, reachedOverflow a a = false → _dl_cache_libcmp a a = some 0) :=
  ⟨fun a b => libcmp_antisym a b, fun a h => libcmp_self a h⟩

/-- C5 witness: the amended claim at the spec's own test strings. -/
theorem c5_witness :
    _dl_cache_libcmp (goStr "a.so") (goStr "b.so") =
      ((_dl_cache_libcmp (goStr "b.so") (goStr "a.so")).map (fun x => -x)) ∧
    _dl_cache_libcmp (goStr "c.so") (goStr "c.so") = some 0 :=
  ⟨c5_antisym_and_bounded_refl.1 (goStr "a.so") (goStr "b.so"),
   c5_antisym_and_bounded_refl.2 (goStr "c.so") (by decide)⟩

/-- C10: the comparator is total only for bounded version numbers.  Part 1:
`_dl_cache_libcmp a b` panics exactly when the scan reaches a compared
maximal digit run whose value exceeds the signed 32-bit range
(`reachedOverflow`), and whenever no reached run overflows it terminates
with -1, 0 or 1.  Part 2: a bisection step whose probed entry's key
compares against the query with such a panic returns the panic, and
`Lookup` propagates it. -/
theorem c10_total_only_when_bounded :
    (∀ a b : List Nat,
      (_dl_cache_libcmp a b = none ↔ reachedOverflow a b = true) ∧
      (reachedOverflow a b = false →
        _dl_cache_libcmp a b = some (-1) ∨ _dl_cache_libcmp a b = some 0 ∨
          _dl_cache_libcmp a b = some 1)) ∧
    (∀ (entries : List fileEntry) (library : List Nat) (lo hi : Nat) (e : fileEntry),
      lo < hi → entries.get? ((lo + hi) / 2) = some e →
      _dl_cache_libcmp e.Key library = none →
      bisectLoop entries library lo hi = some .panicked) ∧
    (∀ (dc : DLCache) (library : List Nat),
      bisectLoop dc.FileEntries library 0 dc.FileEntries.length = some .panicked →
      dc.Lookup library = .panicked) := by
  refine ⟨fun a b => ⟨libcmp_none_iff a b, fun h => ?_⟩, ?_, ?_⟩
  · cases hc : libcmpLoop a b with
    | none => rw [(libcmp_none_iff a b).mp hc] at h; cases h
    | some r =>
      rcases libcmp_range a b r hc with h1 | h1 | h1 <;>
        simp [_dl_cache_libcmp, hc, h1]
  · intro entries library lo hi e hlt hget hcmp
    rw [List.get?_eq_getElem?] at hget
    rw [bisectLoop]
    simp [hlt, hget, hcmp]
  · intro dc library h
    simp [DLCache.Lookup, h]

/-- C10 witness: a bounded pair returns one of -1, 0, 1, and a lookup whose
probed key holds an over-32-bit digit run panics. -/
theorem c10_witness :
    (_dl_cache_libcmp (goStr "a.so") (goStr "b.so") = some (-1) ∨
     _dl_cache_libcmp (goStr "a.so") (goStr "b.so") = some 0 ∨
     _dl_cache_libcmp (goStr "a.so") (goStr "b.so") = some 1) ∧
    DLCache.Lookup ⟨[⟨768, goStr "9999999999", goStr "p"⟩]⟩ (goStr "9999999999") =
      .panicked := by
  constructor
  · exact (c10_total_only_when_bounded.1 (goStr "a.so") (goStr "b.so")).2 (by decide)
  · exact c10_total_only_when_bounded.2.2 ⟨[⟨768, goStr "9999999999", goStr "p"⟩]⟩
      (goStr "9999999999")
      (c10_total_only_when_bounded.2.1 [⟨768, goStr "9999999999", goStr "p"⟩]
        (goStr "9999999999") 0 1 ⟨768, goStr "9999999999", goStr "p"⟩
        (by decide) (by decide) (by decide))

/-- C9: when the bisection exits without a match and the linear-scan
fallback finds its first exact key match at index `i`, `Lookup` panics
(index out of range in the logging loop over indices `i-10 .. i+9`) when
`i < 10` or `i + 10 > len`, and only returns the matched value when the
match lies at least 10 entries from both ends. -/
theorem c9_fallback_window (dc : DLCache) (library : List Nat) (i : Nat)
    (hb : bisectLoop dc.FileEntries library 0 dc.FileEntries.length = none)
    (hf : dc.FileEntries.findIdx? (fun e => e.Key == library) = some i) :
    ((i < 10 ∨ dc.FileEntries.length < i + 10) → dc.Lookup library = .panicked) ∧
    (10 ≤ i → i + 10 ≤ dc.FileEntries.length →
      ∀ e : fileEntry, dc.FileEntries.get? i = some e →
        dc.Lookup library = .found e.Value) := by
  constructor
  · intro hrange
    unfold DLCache.Lookup
    rw [hb]
    unfold fallbackScan
    simp only [hf]
    rw [if_neg (by omega)]
  · intro h10 hlen e hget
    unfold DLCache.Lookup
    rw [hb]
    unfold fallbackScan
    simp only [hf]
    rw [if_pos ⟨h10, hlen⟩]
    simp only [hget]

/-- C9 witness: a one-entry cache whose sole entry is 32-bit flagged; the
bisection rejects it, the fallback matches at index 0 < 10, and the lookup
panics. -/
theorem c9_witness :
    DLCache.Lookup ⟨[⟨0, goStr "k", goStr "v"⟩]⟩ (goStr "k") = .panicked :=
  (c9_fallback_window ⟨[⟨0, goStr "k", goStr "v"⟩]⟩ (goStr "k") 0
    (by simp [bisectLoop, fileEntry.Is64]; decide) (by decide)).1 (by omega)

/-- Bisection invariant for `Lookup` on a cache sorted the way the loop
assumes (descending under `_dl_cache_libcmp`): if the entries comparing
equal to the query form the contiguous block `[p, q]`, everything before it
compares greater (`some 1`) and everything after compares smaller
(`some (-1)`), and the block's first entry is 64-bit flagged, then the loop
on any range `[lo, hi)` containing `p` returns the value of a 64-bit
flagged entry of the block. -/
theorem bisect_block_found (entries : List fileEntry) (k : List Nat) (p q : Nat)
    (ep : fileEntry)
    (hpq : p ≤ q)
    (hep : entries[p]? = some ep)
    (h64 : ep.Is64 = true)
    (hlt : ∀ i e, i < p → entries[i]? = some e → _dl_cache_libcmp e.Key k = some 1)
    (heq : ∀ i e, p ≤ i → i ≤ q → entries[i]? = some e →
      _dl_cache_libcmp e.Key k = some 0)
    (hgt : ∀ i e, q < i → entries[i]? = some e →
      _dl_cache_libcmp e.Key k = some (-1)) :
    ∀ n lo hi, hi - lo ≤ n → hi ≤ entries.length → lo ≤ p → p < hi →
      ∃ i e, entries[i]? = some e ∧ p ≤ i ∧ i ≤ q ∧ e.Is64 = true ∧
        bisectLoop entries k lo hi = some (.found e.Value) := by
  intro n
  induction n with
  | zero => intro lo hi h1 _ h3 h4; omega
  | succ n ih =>
    intro lo hi hn hhi hlo hph
    have hlohi : lo < hi := by omega
    have hmidlt : (lo + hi) / 2 < entries.length := by omega
    rw [bisectLoop, dif_pos hlohi]
    simp only [List.get?_eq_getElem?]
    cases hemid : entries[(lo + hi) / 2]? with
    | none =>
      rw [List.getElem?_eq_none_iff] at hemid
      omega
    | some emid =>
      rcases Nat.lt_trichotomy ((lo + hi) / 2) p with hmp | hmp | hmp
      · -- probe below the block: key > query, the loop moves lo up
        have hcmp := hlt _ _ hmp hemid
        simp only [hemid, _dl_cache_libcmp] at hcmp ⊢
        simp only [hcmp]
        norm_num
        exact ih ((lo + hi) / 2 + 1) hi (by omega) hhi (by omega) hph
      · -- probe hits the block's first entry, which is 64-bit flagged
        have hcmp := heq _ _ (le_of_eq hmp.symm) (by omega) hemid
        have hepm : emid = ep := by
          rw [hmp] at hemid
          exact Option.some.inj (hemid.symm.trans hep)
        subst hepm
        simp only [hemid, _dl_cache_libcmp] at hcmp ⊢
        simp only [hcmp]
        norm_num
        simp only [h64, if_true]
        exact ⟨p, emid, hep, le_refl p, hpq, h64, rfl⟩
      · rcases Nat.lt_or_ge q ((lo + hi) / 2) with hmq | hmq
        · -- probe above the block: key < query, the loop moves hi down
          have hcmp := hgt _ _ hmq hemid
          simp only [hemid, _dl_cache_libcmp] at hcmp ⊢
          simp only [hcmp]
          norm_num
          exact ih lo ((lo + hi) / 2) (by omega) (by omega) hlo (by omega)
        · -- probe inside the block, above its first entry
          have hcmp := heq _ _ (by omega) hmq hemid
          simp only [hemid, _dl_cache_libcmp] at hcmp ⊢
          simp only [hcmp]
          norm_num
          cases h64m : emid.Is64 with
          | true =>
            simp only [h64m, if_true]
            exact ⟨(lo + hi) / 2, emid, hemid, by omega, hmq, h64m, rfl⟩
          | false =>
            simp only [h64m, Bool.false_eq_true, if_false]
            exact ih lo ((lo + hi) / 2) (by omega) (by omega) hlo (by omega)

/-- C1 counterexample: a one-entry cache (trivially sorted by the
comparator) holding key "a" with 32-bit flags.  The claim requires
`lookup("a")` to return the cached path with `true`; instead the bisection
rejects the entry for its architecture, the fallback matches at index
0 < 10, and the logging loop panics, so nothing is returned at all. -/
theorem c1_counterexample :
    DLCache.Lookup ⟨[⟨0, goStr "a", goStr "p"⟩]⟩ (goStr "a") = .panicked ∧
    DLCache.Lookup ⟨[⟨0, goStr "a", goStr "p"⟩]⟩ (goStr "a") ≠ .found (goStr "p") := by
  have h : DLCache.Lookup ⟨[⟨0, goStr "a", goStr "p"⟩]⟩ (goStr "a") = .panicked := by
    simp [DLCache.Lookup, bisectLoop, fallbackScan, fileEntry.Is64]
    decide
  exact ⟨h, by rw [h]; decide⟩

/-- C1 amended: on a cache sorted in the bisection's order (descending
under `cmp`: entries comparing greater than the queried name precede its
cmp-equal block `[p, q]`, smaller ones follow), with no environment
override and a 64-bit desired architecture, `Lookup` returns
`(path, true)` where `path` is the value of a 64-bit-flagged entry of the
block, provided the block's first entry is 64-bit flagged.  In particular
a key present as a 32-bit and a 64-bit pair with the 64-bit entry first
yields the 64-bit path (witness).  Without the proviso the claim fails:
the loop narrows only downward on an architecture mismatch and the
fallback panics near the cache ends or returns the first (possibly
32-bit) match — see the counterexample and C9. -/
theorem c1_sorted_lookup_amended (entries : List fileEntry) (k : List Nat) (p q : Nat)
    (ep : fileEntry)
    (hq : q < entries.length)
    (hpq : p ≤ q)
    (hep : entries[p]? = some ep)
    (h64 : ep.Is64 = true)
    (hlt : ∀ i e, i < p → entries[i]? = some e → _dl_cache_libcmp e.Key k = some 1)
    (heq : ∀ i e, p ≤ i → i ≤ q → entries[i]? = some e →
      _dl_cache_libcmp e.Key k = some 0)
    (hgt : ∀ i e, q < i → entries[i]? = some e →
      _dl_cache_libcmp e.Key k = some (-1)) :
    ∃ i e, entries[i]? = some e ∧ p ≤ i ∧ i ≤ q ∧ e.Is64 = true ∧
      DLCache.Lookup ⟨entries⟩ k = .found e.Value := by
  obtain ⟨i, e, h1, h2, h3, h4, h5⟩ :=
    bisect_block_found entries k p q ep hpq hep h64 hlt heq hgt
      entries.length 0 entries.length (by omega) (le_refl _) (Nat.zero_le p) (by omega)
  exact ⟨i, e, h1, h2, h3, h4, by simp [DLCache.Lookup, h5]⟩

/-- C1 witness: the amended claim's "in particular" case — a sorted cache
whose key "b" is present as a 64-bit entry followed by a 32-bit entry; the
lookup returns the 64-bit path. -/
theorem c1_witness :
    DLCache.Lookup ⟨[⟨768, goStr "b", goStr "p64"⟩, ⟨0, goStr "b", goStr "p32"⟩]⟩
      (goStr "b") = .found (goStr "p64") := by
  obtain ⟨i, e, h1, h2, h3, h4, h5⟩ :=
    c1_sorted_lookup_amended
      [⟨768, goStr "b", goStr "p64"⟩, ⟨0, goStr "b", goStr "p32"⟩] (goStr "b")
      0 1 ⟨768, goStr "b", goStr "p64"⟩ (by decide) (by decide) (by decide) (by decide)
      (fun i e hi _ => absurd hi (Nat.not_lt_zero i))
      (by
        intro i e h0 h1 hget
        interval_cases i <;> simp only [List.getElem?_cons_zero,
          List.getElem?_cons_succ, Option.some.injEq] at hget <;> rw [← hget] <;> decide)
      (by
        intro i e hi hget
        rw [List.getElem?_eq_none_iff.mpr (by simpa using hi)] at hget
        cases hget)
  interval_cases i
  · simp only [List.getElem?_cons_zero, Option.some.injEq] at h1
    rw [← h1] at h5
    exact h5
  · simp only [List.getElem?_cons_zero, List.getElem?_cons_succ,
      Option.some.injEq] at h1
    rw [← h1] at h4
    exact absurd h4 (by decide)

/-- C6 (code bug): a well-formed header whose single record carries key and
value offsets 0 against an empty string table — offsets at/beyond the
string-table length.  The claim (and spec §4.1) requires
`DecodeError(OffsetOutOfRange)`; the code has no bounds check and instead
panics in `readString` (slice out of range), modelled by `.panicked`. -/
theorem c6_offset_out_of_range_panics :
    ReadDLCache (goStr "ld.so-1.7.0" ++ [0] ++ [1, 0, 0, 0] ++
      [0, 0, 0, 0, 0, 0, 0, 0, 0, 0, 0, 0]) = .panicked := by decide

/-- C7 counterexample: the empty stream ends before the magic read
completes, yet decoding reports the magic-mismatch error, not a truncation
error: `binary.Read`'s error is never checked, the magic buffer stays
zeroed, and the "ld.so" comparison fails first. -/
theorem c7_counterexample :
    ReadDLCache [] = .errMagic ∧ DecodeResult.errMagic ≠ .errTruncated := by decide

/-- C7 amended: a stream truncated inside the 4-byte entry count or inside
the `N` 12-byte records yields the truncation error, but a stream shorter
than the 12-byte magic header yields the magic-mismatch error instead
(counterexample), and the string table — read to end-of-stream — cannot be
truncated at all. -/
theorem c7_truncation_amended :
    (∀ input : List Nat, input.length < 12 → ReadDLCache input = .errMagic) ∧
    (∀ input : List Nat, input.take 5 = goStr "ld.so" → 12 ≤ input.length →
      input.length < 16 → ReadDLCache input = .errTruncated) ∧
    (∀ input : List Nat, input.take 5 = goStr "ld.so" → 16 ≤ input.length →
      input.length < 16 + 12 * le32 ((input.drop 12).take 4) →
      ReadDLCache input = .errTruncated) := by
  refine ⟨?_, ?_, ?_⟩
  · intro input h
    simp only [ReadDLCache, if_pos h]
    rw [if_neg (by decide)]
  · intro input hmagic h12 h16
    simp only [ReadDLCache, if_neg (by omega : ¬ input.length < 12)]
    rw [if_pos (by rw [List.take_take]; simpa using hmagic)]
    rw [if_pos (by simp [List.length_drop]; omega)]
  · intro input hmagic h16 hrec
    simp only [ReadDLCache, if_neg (by omega : ¬ input.length < 12)]
    rw [if_pos (by rw [List.take_take]; simpa using hmagic)]
    rw [if_neg (by simp [List.length_drop]; omega)]
    rw [if_pos (by
      simp only [List.drop_drop, List.length_drop]
      omega)]

/-- C7 witness: concrete truncations — a 1-byte stream (magic error), a
stream ending inside the entry count, and a stream announcing one record
but ending right after the count. -/
theorem c7_witness :
    ReadDLCache [108] = .errMagic ∧
    ReadDLCache (goStr "ld.so-1.7.0" ++ [0] ++ [1, 0]) = .errTruncated ∧
    ReadDLCache (goStr "ld.so-1.7.0" ++ [0] ++ [1, 0, 0, 0]) = .errTruncated :=
  ⟨c7_truncation_amended.1 [108] (by decide),
   c7_truncation_amended.2.1 (goStr "ld.so-1.7.0" ++ [0] ++ [1, 0])
     (by decide) (by decide) (by decide),
   c7_truncation_amended.2.2 (goStr "ld.so-1.7.0" ++ [0] ++ [1, 0, 0, 0])
     (by decide) (by decide) (by decide)⟩

/-- Invariant carried through the traversal: the instrumentation trace is
duplicate-free (each node's imports fetched at most once) and every traced
node has been marked seen. -/
def TraceInv (st : St) : Prop := st.trace.Nodup ∧ ∀ g ∈ st.trace, g ∈ st.seen

/-- `visitDeps` preserves `TraceInv` whenever the recursive visit does. -/
theorem visitDeps_traceInv (recur : String → St → St × VOutcome)
    (hrec : ∀ d st, TraceInv st → TraceInv (recur d st).1) :
    ∀ deps st, TraceInv st → TraceInv (visitDeps recur deps st).1 := by
  intro deps
  induction deps with
  | nil => intro st h; exact h
  | cons d ds ih =>
    intro st h
    have h1 : TraceInv { st with imports := insertIfAbsent d st.imports } := h
    simp only [visitDeps]
    cases hv : recur d { st with imports := insertIfAbsent d st.imports } with
    | mk st2 out =>
      have h2 : TraceInv st2 := by
        have := hrec d { st with imports := insertIfAbsent d st.imports } h1
        rw [hv] at this
        exact this
      cases out with
      | done => exact ih st2 h2
      | failed e => exact h2
      | outOfFuel => exact h2

/-- `visit` preserves `TraceInv`: a node is traced only on its transition
from unseen to seen, and `seen` never shrinks. -/
theorem visit_traceInv (reader : String → Except String (List String)) :
    ∀ fuel f st, TraceInv st → TraceInv (visit reader fuel f st).1 := by
  intro fuel
  induction fuel with
  | zero => intro f st h; exact h
  | succ n ih =>
    intro f st h
    simp only [visit]
    by_cases hf : f ∈ st.seen
    · simp only [hf, if_true]
      exact h
    · simp only [hf, if_false]
      have h1 : TraceInv { st with seen := f :: st.seen, trace := st.trace ++ [f] } := by
        refine ⟨?_, ?_⟩
        · refine List.Nodup.append h.1 (List.nodup_singleton f) ?_
          intro g hg hg'
          rw [List.mem_singleton] at hg'
          subst hg'
          exact hf (h.2 g hg)
        · intro g hg
          rcases List.mem_append.mp hg with hg | hg
          · exact List.mem_cons_of_mem f (h.2 g hg)
          · rw [List.mem_singleton] at hg
            rw [hg]
            exact List.mem_cons_self f st.seen
      cases hr : reader f with
      | error e => simp only [hr]; exact h1
      | ok deps =>
        simp only [hr]
        exact visitDeps_traceInv (visit reader n) (fun d st' h' => ih d st' h') deps _ h1

/-- Fuel monotonicity for `visitDeps`: a completed run (not out of fuel) is
reproduced verbatim by any recursive visit that reproduces completed
runs. -/
theorem visitDeps_fuel_mono (recur recur' : String → St → St × VOutcome)
    (hrec : ∀ d st st' out, recur d st = (st', out) → out ≠ .outOfFuel →
      recur' d st = (st', out)) :
    ∀ deps st st' out, visitDeps recur deps st = (st', out) → out ≠ .outOfFuel →
      visitDeps recur' deps st = (st', out) := by
  intro deps
  induction deps with
  | nil => intro st st' out h _; exact h
  | cons d ds ih =>
    intro st st' out h hout
    simp only [visitDeps] at h ⊢
    cases hv : recur d { st with imports := insertIfAbsent d st.imports } with
    | mk st2 o2 =>
      rw [hv] at h
      cases o2 with
      | done =>
        rw [hrec d _ st2 .done hv (by simp)]
        exact ih st2 st' out h hout
      | failed e =>
        rw [hrec d _ st2 (.failed e) hv (by simp)]
        exact h
      | outOfFuel =>
        simp only [Prod.mk.injEq] at h
        rcases h with ⟨-, rfl⟩
        exact absurd rfl hout

/-- Fuel monotonicity for `visit`: a run that completes (successfully or
with an error) within some depth budget is reproduced verbatim by one more
unit of budget. -/
theorem visit_fuel_mono (reader : String → Except String (List String)) :
    ∀ fuel f st st' out, visit reader fuel f st = (st', out) → out ≠ .outOfFuel →
      visit reader (fuel + 1) f st = (st', out) := by
  intro fuel
  induction fuel with
  | zero =>
    intro f st st' out h hout
    simp only [visit, Prod.mk.injEq] at h
    rcases h with ⟨-, rfl⟩
    exact absurd rfl hout
  | succ n ih =>
    intro f st st' out h hout
    simp only [visit] at h ⊢
    by_cases hf : f ∈ st.seen
    · simp only [hf, if_true] at h ⊢
      exact h
    · simp only [hf, if_false] at h ⊢
      cases hr : reader f with
      | error e => rw [hr] at h; exact h
      | ok deps =>
        rw [hr] at h
        exact visitDeps_fuel_mono (visit reader n) (visit reader (n + 1))
          (fun d st1 st2 o hv ho => ih d st1 st2 o hv ho) deps _ st' out h hout

/-- A completed `closureF` run is stable under any larger fuel budget: the
modelled recursion depth bound plays no semantic role once the traversal
terminates. -/
theorem closureF_fuel_mono (reader : String → Except String (List String))
    (fuel fuel' : Nat) (start : String) (r : Except String (List String))
    (hle : fuel ≤ fuel') (h : closureF reader fuel start = some r) :
    closureF reader fuel' start = some r := by
  induction fuel' with
  | zero =>
    have : fuel = 0 := by omega
    subst this
    exact h
  | succ m ih =>
    rcases Nat.lt_or_ge fuel (m + 1) with hlt | hge
    · have hm := ih (by omega)
      unfold closureF at hm ⊢
      unfold recursiveImports at hm ⊢
      cases hrun : visit reader m start ⟨[], [], []⟩ with
      | mk st out =>
        rw [hrun] at hm
        cases out with
        | done =>
          rw [visit_fuel_mono reader m start ⟨[], [], []⟩ st .done hrun (by simp)]
          exact hm
        | failed e =>
          rw [visit_fuel_mono reader m start ⟨[], [], []⟩ st (.failed e) hrun (by simp)]
          exact hm
        | outOfFuel => simp at hm
    · have : fuel = m + 1 := by omega
      subst this
      exact h

/-- Fuel monotonicity for `visit`, arbitrary budget increase. -/
theorem visit_fuel_ge (reader : String → Except String (List String))
    (fuel fuel' : Nat) (hle : fuel ≤ fuel') (f : String) (st st' : St) (out : VOutcome)
    (h : visit reader fuel f st = (st', out)) (hout : out ≠ .outOfFuel) :
    visit reader fuel' f st = (st', out) := by
  induction fuel' with
  | zero =>
    have h0 : fuel = 0 := by omega
    subst h0
    exact h
  | succ m ih =>
    rcases Nat.lt_or_ge fuel (m + 1) with hlt | hge
    · exact visit_fuel_mono reader m f st st' out (ih (by omega)) hout
    · have hm : fuel = m + 1 := by omega
      subst hm
      exact h

/-- C2 counterexample: on the 2-node cycle A→B, B→A, the resolution
terminates but returns the set containing A as well: `visit(B)` adds its
dep "A" to `imports` before the seen-check stops the recursion
(main.go:144 runs before the check inside the recursive call), so the
result set is not the claimed set consisting of B alone. -/
theorem c2_counterexample :
    closureF cycReader 5 "A" = some (.ok ["B", "A"]) ∧
    (["B", "A"] : List String).toFinset ≠ ({"B"} : Finset String) :=
  ⟨rfl, by decide⟩

/-- C2 amended: on the 2-node cycle A→B, B→A, `closure(A)` terminates —
any depth budget of at least 5 completes with the same result — and
returns the set containing exactly A and B: the start file itself reappears
because B re-imports it by name (this matches spec §4.3's general result
description over its §8 test line). -/
theorem c2_cycle_closure :
    (∀ fuel : Nat, 5 ≤ fuel → closureF cycReader fuel "A" = some (.ok ["B", "A"])) ∧
    (["B", "A"] : List String).toFinset = ({"A", "B"} : Finset String) :=
  ⟨fun fuel h5 => closureF_fuel_mono cycReader 5 fuel "A" (.ok ["B", "A"]) h5 rfl,
   by decide⟩

/-- C2 witness: the amended claim at budget 5. -/
theorem c2_witness : closureF cycReader 5 "A" = some (.ok ["B", "A"]) :=
  c2_cycle_closure.1 5 (le_refl 5)

/-- C3: the visited-set invariant — on every graph and every start, each
node's direct imports are fetched at most once (the instrumentation trace
of `readImports` calls is duplicate-free) — and on the 4-node diamond
A→B, A→C, B→D, C→D the import-reading step runs exactly once for D while
`closure(A)` returns exactly the set containing B, C and D. -/
theorem c3_visited_set_invariant :
    (∀ (reader : String → Except String (List String)) (fuel : Nat) (start f : String),
      (recursiveImports reader fuel start).1.trace.count f ≤ 1) ∧
    (∀ fuel : Nat, 10 ≤ fuel →
      recursiveImports diamondReader fuel "A" =
        (⟨["C", "D", "B", "A"], ["B", "D", "C"], ["A", "B", "D", "C"]⟩, .done)) ∧
    (["A", "B", "D", "C"] : List String).count "D" = 1 ∧
    (∀ fuel : Nat, 10 ≤ fuel →
      closureF diamondReader fuel "A" = some (.ok ["B", "D", "C"])) ∧
    (["B", "D", "C"] : List String).toFinset = ({"B", "C", "D"} : Finset String) := by
  refine ⟨?_, ?_, by decide, ?_, by decide⟩
  · intro reader fuel start f
    have h := visit_traceInv reader fuel start ⟨[], [], []⟩
      ⟨List.nodup_nil, by intro g hg; cases hg⟩
    exact List.nodup_iff_count_le_one.mp h.1 f
  · intro fuel h10
    exact visit_fuel_ge diamondReader 10 fuel h10 "A" ⟨[], [], []⟩
      ⟨["C", "D", "B", "A"], ["B", "D", "C"], ["A", "B", "D", "C"]⟩ .done rfl (by simp)
  · intro fuel h10
    exact closureF_fuel_mono diamondReader 10 fuel "A" (.ok ["B", "D", "C"]) h10 rfl

/-- C3 witness: the diamond graph at budget 10 — D's import read happens
at most once (and the full trace [A, B, D, C] shows it happens exactly
once) while the closure is the set containing B, C and D. -/
theorem c3_witness :
    (recursiveImports diamondReader 10 "A").1.trace.count "D" ≤ 1 ∧
    recursiveImports diamondReader 10 "A" =
      (⟨["C", "D", "B", "A"], ["B", "D", "C"], ["A", "B", "D", "C"]⟩, .done) ∧
    closureF diamondReader 10 "A" = some (.ok ["B", "D", "C"]) :=
  ⟨c3_visited_set_invariant.1 diamondReader 10 "A" "D",
   c3_visited_set_invariant.2.1 10 (le_refl 10),
   c3_visited_set_invariant.2.2.2.1 10 (le_refl 10)⟩

/-- Membership after a modelled Go map insertion. -/
theorem mem_insertIfAbsent (x y : String) (l : List String) :
    x ∈ insertIfAbsent y l ↔ x ∈ l ∨ x = y := by
  unfold insertIfAbsent
  split_ifs with hy
  · constructor
    · exact fun h => Or.inl h
    · rintro (h | rfl)
      · exact h
      · exact hy
  · simp [List.mem_append]

/-- A failing `visitDeps` run surfaces the error of a reader that failed on
a node marked seen in the returned state, whenever the recursive visit
does. -/
theorem visitDeps_error_src (reader : String → Except String (List String))
    (recur : String → St → St × VOutcome)
    (hrec : ∀ d st st' e, recur d st = (st', .failed e) →
      ∃ g, g ∈ st'.seen ∧ reader g = .error e) :
    ∀ deps st st' e, visitDeps recur deps st = (st', .failed e) →
      ∃ g, g ∈ st'.seen ∧ reader g = .error e := by
  intro deps
  induction deps with
  | nil => intro st st' e h; simp [visitDeps] at h
  | cons d ds ih =>
    intro st st' e h
    simp only [visitDeps] at h
    cases hv : recur d { st with imports := insertIfAbsent d st.imports } with
    | mk st2 out =>
      rw [hv] at h
      cases out with
      | done => exact ih st2 st' e h
      | failed e2 =>
        simp only [Prod.mk.injEq, VOutcome.failed.injEq] at h
        rcases h with ⟨rfl, rfl⟩
        exact hrec d _ st2 e2 hv
      | outOfFuel => simp at h

/-- A failing `visit` run surfaces the error of a reader that failed on a
node marked seen in the returned state. -/
theorem visit_error_src (reader : String → Except String (List String)) :
    ∀ fuel f st st' e, visit reader fuel f st = (st', .failed e) →
      ∃ g, g ∈ st'.seen ∧ reader g = .error e := by
  intro fuel
  induction fuel with
  | zero => intro f st st' e h; simp [visit] at h
  | succ n ih =>
    intro f st st' e h
    simp only [visit] at h
    by_cases hf : f ∈ st.seen
    · simp only [hf, if_true] at h
      simp at h
    · simp only [hf, if_false] at h
      cases hr : reader f with
      | error e2 =>
        rw [hr] at h
        simp only [Prod.mk.injEq, VOutcome.failed.injEq] at h
        rcases h with ⟨rfl, rfl⟩
        exact ⟨f, List.mem_cons_self f st.seen, hr⟩
      | ok deps =>
        rw [hr] at h
        exact visitDeps_error_src reader (visit reader n)
          (fun d st1 st2 e2 hv => ih d st1 st2 e2 hv) deps _ st' e h

/-- Properties of a successfully completed `visitDeps` run: `seen` grows
monotonically, nodes newly seen have readable imports, every element of
`imports` was already there or is now `seen`, and every dep of the list is
`seen` — given the same for the recursive visit. -/
theorem visitDeps_done_props (reader : String → Except String (List String))
    (recur : String → St → St × VOutcome)
    (hrec : ∀ d st st', recur d st = (st', .done) →
      st.seen ⊆ st'.seen ∧ d ∈ st'.seen ∧
      (∀ g ∈ st'.seen, g ∈ st.seen ∨ (reader g).isOk = true) ∧
      (∀ x ∈ st'.imports, x ∈ st.imports ∨ x ∈ st'.seen)) :
    ∀ deps st st', visitDeps recur deps st = (st', .done) →
      st.seen ⊆ st'.seen ∧
      (∀ g ∈ st'.seen, g ∈ st.seen ∨ (reader g).isOk = true) ∧
      (∀ x ∈ st'.imports, x ∈ st.imports ∨ x ∈ st'.seen) := by
  intro deps
  induction deps with
  | nil =>
    intro st st' h
    simp only [visitDeps, Prod.mk.injEq] at h
    rcases h with ⟨rfl, -⟩
    exact ⟨List.Subset.refl _, fun g hg => Or.inl hg, fun x hx => Or.inl hx⟩
  | cons d ds ih =>
    intro st st' h
    simp only [visitDeps] at h
    cases hv : recur d { st with imports := insertIfAbsent d st.imports } with
    | mk st2 out =>
      rw [hv] at h
      cases out with
      | done =>
        obtain ⟨hsub2, hd2, hok2, himp2⟩ := hrec d _ st2 hv
        obtain ⟨hsub3, hok3, himp3⟩ := ih st2 st' h
        refine ⟨fun g hg => hsub3 (hsub2 hg), ?_, ?_⟩
        · intro g hg
          rcases hok3 g hg with hg2 | hg2
          · rcases hok2 g hg2 with hg3 | hg3
            · exact Or.inl hg3
            · exact Or.inr hg3
          · exact Or.inr hg2
        · intro x hx
          rcases himp3 x hx with hx2 | hx2
          · rcases himp2 x hx2 with hx3 | hx3
            · rcases (mem_insertIfAbsent x d st.imports).mp hx3 with hx4 | rfl
              · exact Or.inl hx4
              · exact Or.inr (hsub3 hd2)
            · exact Or.inr (hsub3 hx3)
          · exact Or.inr hx2
      | failed e => simp at h
      | outOfFuel => simp at h

/-- Properties of a successfully completed `visit` run: `seen` grows
monotonically and contains the visited node, every newly seen node's
reader call succeeded, and every element of `imports` was already there or
is now `seen`. -/
theorem visit_done_props (reader : String → Except String (List String)) :
    ∀ fuel f st st', visit reader fuel f st = (st', .done) →
      st.seen ⊆ st'.seen ∧ f ∈ st'.seen ∧
      (∀ g ∈ st'.seen, g ∈ st.seen ∨ (reader g).isOk = true) ∧
      (∀ x ∈ st'.imports, x ∈ st.imports ∨ x ∈ st'.seen) := by
  intro fuel
  induction fuel with
  | zero => intro f st st' h; simp [visit] at h
  | succ n ih =>
    intro f st st' h
    simp only [visit] at h
    by_cases hf : f ∈ st.seen
    · simp only [hf, if_true, Prod.mk.injEq] at h
      rcases h with ⟨rfl, -⟩
      exact ⟨List.Subset.refl _, hf, fun g hg => Or.inl hg, fun x hx => Or.inl hx⟩
    · simp only [hf, if_false] at h
      cases hr : reader f with
      | error e => rw [hr] at h; simp at h
      | ok deps =>
        rw [hr] at h
        obtain ⟨hsub, hok, himp⟩ := visitDeps_done_props reader (visit reader n)
          (fun d st1 st2 hv => ih d st1 st2 hv) deps _ st' h
        refine ⟨fun g hg => hsub (List.mem_cons_of_mem f hg),
          hsub (List.mem_cons_self f st.seen), ?_, ?_⟩
        · intro g hg
          rcases hok g hg with hg2 | hg2
          · rcases List.mem_cons.mp hg2 with rfl | hg3
            · right
              rw [hr]
              rfl
            · exact Or.inl hg3
          · exact Or.inr hg2
        · intro x hx
          exact himp x hx

/-- C8: `closure` is all-or-nothing.  If any reached node's import read
fails, the whole resolution fails: a failing run surfaces the failing
node's error (first conjunct), and a successful run implies that every name
in the returned closure set had a successful import read — no set is ever
returned while some reached node failed (second conjunct). -/
theorem c8_all_or_nothing :
    (∀ (reader : String → Except String (List String)) (fuel : Nat)
       (start e : String),
      closureF reader fuel start = some (.error e) →
      ∃ g, g ∈ (recursiveImports reader fuel start).1.seen ∧ reader g = .error e) ∧
    (∀ (reader : String → Except String (List String)) (fuel : Nat)
       (start : String) (l : List String),
      closureF reader fuel start = some (.ok l) →
      ∀ f, f ∈ l → (reader f).isOk = true) := by
  constructor
  · intro reader fuel start e h
    unfold closureF at h
    cases hrun : recursiveImports reader fuel start with
    | mk st out =>
      rw [hrun] at h
      cases out with
      | done => simp at h
      | failed e2 =>
        simp only [Option.some.injEq, Except.error.injEq] at h
        subst h
        exact visit_error_src reader fuel start ⟨[], [], []⟩ st e2 hrun
      | outOfFuel => simp at h
  · intro reader fuel start l h f hf
    unfold closureF at h
    cases hrun : recursiveImports reader fuel start with
    | mk st out =>
      rw [hrun] at h
      cases out with
      | done =>
        simp only [Option.some.injEq, Except.ok.injEq] at h
        subst h
        obtain ⟨-, -, hok, himp⟩ :=
          visit_done_props reader fuel start ⟨[], [], []⟩ st hrun
        rcases himp f hf with hf2 | hf2
        · cases hf2
        · rcases hok f hf2 with hf3 | hf3
          · cases hf3
          · exact hf3
      | failed e => simp at h
      | outOfFuel => simp at h

/-- C8 witness: a successful diamond-graph run implies node B's imports
were readable. -/
theorem c8_witness : (diamondReader "B").isOk = true :=
  c8_all_or_nothing.2 diamondReader 10 "A" ["B", "D", "C"] rfl "B" (by decide)
